import Mathlib

/-!
Shallow embedding of the Bitespeed identity-reconciliation core
(`ContactService`, canonical variant: the revision with orphan recovery and
iterative upward traversal).

The persistent store (one table of `Contact` rows behind Prisma) is modelled
as an insertion-ordered list of rows together with the auto-increment
counter and the clock used for `createdAt` defaults.  `findMany` returns the
matching rows in store order; `orderBy: { createdAt: "asc" }` is a stable
sort on that order.  JavaScript string truthiness (`null` and `""` are
falsy) is modelled by `truthyStr`.  Rows carry only the fields the
resolution algorithm reads (`updatedAt` and `deletedAt` are never consulted
by it and are omitted).  Fallible operations return `Option`.
-/

inductive LinkPrecedence where
  | primary
  | secondary
deriving DecidableEq

structure Contact where
  id : Nat
  email : Option String
  phoneNumber : Option String
  linkedId : Option Nat
  linkPrecedence : LinkPrecedence
  createdAt : Nat
deriving DecidableEq

structure DB where
  rows : List Contact
  nextId : Nat
  now : Nat
deriving DecidableEq

structure IdentifyResponse where
  primaryContactId : Nat
  emails : List String
  phoneNumbers : List String
  secondaryContactIds : List Nat
deriving DecidableEq

/-- JavaScript truthiness of a `string | null` value: `null` and `""` are falsy. -/
def truthyStr : Option String → Bool
  | none => false
  | some s => !s.isEmpty

/-- One disjunct of the Prisma `OR` filter: `email ? { email } : {}` keeps the
clause only when the given value is truthy, and the kept clause matches rows
whose `email` equals it. -/
def emailClauseMatches (email : Option String) (c : Contact) : Bool :=
  truthyStr email && c.email == email

def phoneClauseMatches (phoneNumber : Option String) (c : Contact) : Bool :=
  truthyStr phoneNumber && c.phoneNumber == phoneNumber

/-- `findMatchingContacts`: `prisma.contact.findMany` with
`OR: [email ? { email } : {}, phoneNumber ? { phoneNumber } : {}]` after the
empty clauses are filtered out; an empty `OR` matches no row. -/
def findMatchingContacts (db : DB) (email phoneNumber : Option String) : List Contact :=
  db.rows.filter fun c =>
    emailClauseMatches email c || phoneClauseMatches phoneNumber c

/-- `prisma.contact.create`: the store assigns the next id and stamps
`createdAt` with the current clock; the new row is appended. -/
def createContact (db : DB) (email phoneNumber : Option String)
    (linkedId : Option Nat) (lp : LinkPrecedence) : Contact × DB :=
  let c : Contact :=
    { id := db.nextId, email := email, phoneNumber := phoneNumber,
      linkedId := linkedId, linkPrecedence := lp, createdAt := db.now }
  (c, { db with rows := db.rows ++ [c], nextId := db.nextId + 1 })

/-- `prisma.contact.findUnique({ where: { id } })`. -/
def findUniqueById (db : DB) (i : Nat) : Option Contact :=
  db.rows.find? fun c => c.id == i

/-- Loop body of `findAllPrimaryContactIds`: `contactsToTrace` is kept with
its top at the head (JavaScript pops from and pushes to the array's end),
`tracedIds` deduplicates visited ids, and `allPrimaryContactIds` accumulates
in insertion order.  The `else if (contact.linkedId)` guard followed by the
`if (parent)` null-check after `findUnique` is one `Option.bind`: the parent
is pushed exactly when `linkedId` is set and its target row exists.  The
`while` loop is driven by fuel; `none` means the fuel ran out before the
stack emptied. -/
def findAllPrimaryIdsGo (db : DB) :
    Nat → List Contact → List Nat → List Nat → Option (List Nat)
  | _, [], _, acc => some acc
  | 0, _ :: _, _, _ => none
  | fuel + 1, c :: rest, traced, acc =>
    if c.id ∈ traced then
      findAllPrimaryIdsGo db fuel rest traced acc
    else if c.linkPrecedence = LinkPrecedence.primary then
      findAllPrimaryIdsGo db fuel rest (c.id :: traced) (acc ++ [c.id])
    else
      match c.linkedId.bind (findUniqueById db) with
      | some parent => findAllPrimaryIdsGo db fuel (parent :: rest) (c.id :: traced) acc
      | none => findAllPrimaryIdsGo db fuel rest (c.id :: traced) acc

/-- Fuel that the sufficiency theorem shows is enough for the traversal to
drain its stack. -/
def traceFuel (db : DB) (matchingContacts : List Contact) : Nat :=
  matchingContacts.length + 2 * db.rows.length + 1

/-- `findAllPrimaryContactIds`: iterative upward traversal from the matched
contacts, cycle-safe through the visited set, skipping missing `linkedId`
targets. -/
def findAllPrimaryContactIds (db : DB) (matchingContacts : List Contact) :
    Option (List Nat) :=
  findAllPrimaryIdsGo db (traceFuel db matchingContacts)
    matchingContacts.reverse [] []

/-- Stable insertion of a contact into a list sorted by `createdAt`: the new
element goes before every element whose `createdAt` is not strictly smaller,
so elements with equal timestamps keep their original relative order. -/
def insertByCreatedAt (c : Contact) : List Contact → List Contact
  | [] => [c]
  | d :: ds =>
    if d.createdAt < c.createdAt then d :: insertByCreatedAt c ds
    else c :: d :: ds

/-- Stable sort by `createdAt` ascending, the model of both
`orderBy: { createdAt: "asc" }` and the JavaScript
`sort((a, b) => a.createdAt.getTime() - b.createdAt.getTime())` (stable per
ECMAScript). -/
def sortByCreatedAt (l : List Contact) : List Contact :=
  l.foldr insertByCreatedAt []

/-- `fetchPrimaryContacts`: `findMany` over the collected ids, ordered by
`createdAt` ascending. -/
def fetchPrimaryContacts (db : DB) (primaryContactIds : List Nat) : List Contact :=
  sortByCreatedAt (db.rows.filter fun c => c.id ∈ primaryContactIds)

/-- The `linkedId: { in: otherPrimaryIds }` clause of the merge batch. -/
def linkedIdIn (o : Option Nat) (ids : List Nat) : Bool :=
  match o with
  | some l => ids.contains l
  | none => false

/-- The `where` clause of the merge's `updateMany`:
`id in otherPrimaryIds OR linkedId in otherPrimaryIds`. -/
def mergeCond (otherPrimaryIds : List Nat) (c : Contact) : Bool :=
  otherPrimaryIds.contains c.id || linkedIdIn c.linkedId otherPrimaryIds

/-- The `data` clause of the merge's `updateMany`: demote to secondary,
pointing at the surviving primary. -/
def demote (survivorId : Nat) (c : Contact) : Contact :=
  { c with linkedId := some survivorId, linkPrecedence := LinkPrecedence.secondary }

/-- The `data` clause of the orphan-recovery `update`: promote to primary
and clear the link. -/
def promote (c : Contact) : Contact :=
  { c with linkPrecedence := LinkPrecedence.primary, linkedId := none }

/-- `handleOrphanedSecondaries`: pick the oldest of the original matches by
`createdAt`; if it is not already primary, promote it in place
(`linkPrecedence := primary`, `linkedId := null`) and return the updated
row.  `none` only for an empty match list, which the caller excludes. -/
def handleOrphanedSecondaries (db : DB) (matchingContacts : List Contact) :
    Option (Contact × DB) :=
  match sortByCreatedAt matchingContacts with
  | [] => none
  | oldest :: _ =>
    if oldest.linkPrecedence ≠ LinkPrecedence.primary then
      some (promote oldest,
        { db with rows := db.rows.map fun c =>
            if c.id = oldest.id then promote oldest else c })
    else
      some (oldest, db)

/-- `mergePrimaryContacts`: the oldest reachable primary survives; one
`updateMany` batch rewrites every other reachable primary and every contact
linked to one of them to `linkPrecedence := secondary`,
`linkedId := survivor.id`. -/
def mergePrimaryContacts (db : DB) (allPrimaryContacts : List Contact) : DB :=
  match allPrimaryContacts with
  | [] => db
  | primaryContact :: others =>
    { db with rows := db.rows.map fun c =>
        if mergeCond (others.map Contact.id) c then demote primaryContact.id c else c }

/-- `resolvePrimaryContact`: traverse to the reachable primaries, fall back
to orphan recovery when none is found, merge when more than one is found,
and return the oldest reachable primary. -/
def resolvePrimaryContact (db : DB) (matchingContacts : List Contact) :
    Option (Contact × DB) :=
  (findAllPrimaryContactIds db matchingContacts).bind fun allPrimaryContactIds =>
    match fetchPrimaryContacts db allPrimaryContactIds with
    | [] => handleOrphanedSecondaries db matchingContacts
    | p :: rest =>
      if rest.length > 0 then
        some (p, mergePrimaryContacts db (p :: rest))
      else
        some (p, db)

/-- `getAllRelatedContacts`: the primary row itself plus every row whose
`linkedId` points at it. -/
def getAllRelatedContacts (db : DB) (primaryContactId : Nat) : List Contact :=
  db.rows.filter fun c => c.id == primaryContactId || c.linkedId == some primaryContactId

/-- Truthy emails of a cluster, the model of
`new Set(contacts.map(c => c.email).filter(Boolean))` (membership is all
that is consulted). -/
def clusterEmails (contacts : List Contact) : List String :=
  (contacts.map Contact.email).filterMap id |>.filter fun s => !s.isEmpty

def clusterPhones (contacts : List Contact) : List String :=
  (contacts.map Contact.phoneNumber).filterMap id |>.filter fun s => !s.isEmpty

/-- `shouldCreateSecondaryContact`: pure novelty check —
`Boolean((email && !allEmails.has(email)) || (phone && !allPhones.has(phone)))`. -/
def shouldCreateSecondaryContact (allRelatedContacts : List Contact)
    (email phoneNumber : Option String) : Bool :=
  let isNewEmail :=
    truthyStr email && !(clusterEmails allRelatedContacts).contains (email.getD "")
  let isNewPhone :=
    truthyStr phoneNumber &&
      !(clusterPhones allRelatedContacts).contains (phoneNumber.getD "")
  isNewEmail || isNewPhone

/-- `createSecondaryContact`. -/
def createSecondaryContact (db : DB) (email phoneNumber : Option String)
    (primaryContactId : Nat) : Contact × DB :=
  createContact db email phoneNumber (some primaryContactId) LinkPrecedence.secondary

/-- The in-line primary choice of `buildResponseFromContacts`:
`contacts.find(c => c.linkPrecedence === "primary") || sortedByCreatedAt[0]`. -/
def clusterPrimary (c : Contact) (cs : List Contact) : Contact :=
  match (c :: cs).find? (fun d => d.linkPrecedence == LinkPrecedence.primary) with
  | some p => p
  | none => (sortByCreatedAt (c :: cs)).headD c

/-- The `if (x && !arr.includes(x)) arr.push(x)` idiom used to accumulate
emails and phone numbers. -/
def pushIfNew (seen : List String) (v : Option String) : List String :=
  match v with
  | none => seen
  | some s => if !s.isEmpty && !seen.contains s then seen ++ [s] else seen

/-- `buildResponseFromContacts`: fails on an empty cluster; otherwise the
primary's email/phone is emitted first, then the non-primary contacts' in
list order, skipping falsy and already-emitted values;
`secondaryContactIds` is every id other than the primary's. -/
def buildResponseFromContacts (contacts : List Contact) : Option IdentifyResponse :=
  match contacts with
  | [] => none
  | c :: cs =>
    let primaryContact := clusterPrimary c cs
    let secondaryContacts := (c :: cs).filter fun d => d.id ≠ primaryContact.id
    let emails := secondaryContacts.foldl (fun acc d => pushIfNew acc d.email)
      (pushIfNew [] primaryContact.email)
    let phoneNumbers := secondaryContacts.foldl (fun acc d => pushIfNew acc d.phoneNumber)
      (pushIfNew [] primaryContact.phoneNumber)
    let secondaryContactIds := ((c :: cs).map Contact.id).filter fun i => i ≠ primaryContact.id
    some { primaryContactId := primaryContact.id, emails := emails,
           phoneNumbers := phoneNumbers, secondaryContactIds := secondaryContactIds }

/-- `createNewPrimaryContact`: fresh primary row for a never-seen identity,
viewed as a singleton cluster. -/
def createNewPrimaryContact (db : DB) (email phoneNumber : Option String) :
    Option (IdentifyResponse × DB) :=
  let created := createContact db email phoneNumber none LinkPrecedence.primary
  (buildResponseFromContacts [created.1]).map fun r => (r, created.2)

/-- `ContactService.identify`, the orchestrator: match, resolve (with merge
or orphan recovery), conditionally create a secondary, build the view. -/
def identify (db : DB) (email phoneNumber : Option String) :
    Option (IdentifyResponse × DB) :=
  let matchingContacts := findMatchingContacts db email phoneNumber
  if matchingContacts.length = 0 then
    createNewPrimaryContact db email phoneNumber
  else
    (resolvePrimaryContact db matchingContacts).bind fun resolved =>
      let primaryContact := resolved.1
      let db1 := resolved.2
      let allRelatedContacts := getAllRelatedContacts db1 primaryContact.id
      let step :=
        if shouldCreateSecondaryContact allRelatedContacts email phoneNumber then
          let created := createSecondaryContact db1 email phoneNumber primaryContact.id
          (allRelatedContacts ++ [created.1], created.2)
        else
          (allRelatedContacts, db1)
      (buildResponseFromContacts step.1).map fun r => (r, step.2)

/-! ## Auxiliary notions used by the verification -/

/-- Number of distinct stored ids not yet visited by the traversal. -/
def untracedCount (db : DB) (traced : List Nat) : Nat :=
  ((db.rows.map Contact.id).dedup.filter fun i => decide (i ∉ traced)).length

/-- The stored id `i` names a primary row. -/
def IsStoredPrimaryId (db : DB) (i : Nat) : Prop :=
  ∃ r ∈ db.rows, r.id = i ∧ r.linkPrecedence = LinkPrecedence.primary

/-- First-occurrence deduplication: keep each value the first time it
appears, in order.  This is the specification-side description of "each
distinct value in the given order, skipping duplicates already present". -/
def keepFirstOccurrences : List String → List String
  | [] => []
  | s :: rest => s :: keepFirstOccurrences (rest.filter fun t => decide (t ≠ s))
termination_by l => l.length
decreasing_by
  simp only [List.length_cons]
  exact Nat.lt_succ_of_le (List.length_filter_le _ _)

/-- Specification-side ordered value sequence of spec §4.5: the primary's
value first, then the remaining contacts' values in their given order,
dropping null and empty values and duplicates already emitted. -/
def orderedValues (primaryVal : Option String) (others : List (Option String)) :
    List String :=
  keepFirstOccurrences
    (((primaryVal :: others).filterMap id).filter fun s => !s.isEmpty)

/-! ## Storage invariants (spec §3) -/

/-- Invariant 1: a primary contact never has `linkedId` set. -/
def PrimaryNoLink (db : DB) : Prop :=
  ∀ c ∈ db.rows, c.linkPrecedence = LinkPrecedence.primary → c.linkedId = none

/-- Invariant 2: a secondary contact always has `linkedId` set, pointing
directly to a contact that is primary. -/
def SecondaryLinksPrimary (db : DB) : Prop :=
  ∀ c ∈ db.rows, c.linkPrecedence = LinkPrecedence.secondary →
    ∃ p ∈ db.rows, c.linkedId = some p.id ∧ p.linkPrecedence = LinkPrecedence.primary

/-- Ids are unique across rows. -/
def IdsNodup (db : DB) : Prop :=
  (db.rows.map Contact.id).Nodup

/-- Every stored id is below the auto-increment counter. -/
def IdsFresh (db : DB) : Prop :=
  ∀ c ∈ db.rows, c.id < db.nextId

def WellFormed (db : DB) : Prop :=
  PrimaryNoLink db ∧ SecondaryLinksPrimary db ∧ IdsNodup db ∧ IdsFresh db

/-! ## Concrete stores used to instantiate the theorems -/

/-- Two primaries with the same `createdAt` and no other rows. -/
def tieA : Contact := ⟨1, none, none, none, LinkPrecedence.primary, 10⟩

def tieB : Contact := ⟨2, none, none, none, LinkPrecedence.primary, 10⟩

def tieStore : DB := ⟨[tieA, tieB], 3, 20⟩

/-- Two secondaries pointing at each other (a `linkedId` cycle) and one
whose target id 99 does not exist (a dangling reference). -/
def cyclicStore : DB :=
  ⟨[⟨1, some "c@x.com", none, some 2, LinkPrecedence.secondary, 10⟩,
    ⟨2, none, some "444", some 1, LinkPrecedence.secondary, 11⟩,
    ⟨3, none, some "555", some 99, LinkPrecedence.secondary, 12⟩], 4, 20⟩

/-- A one-contact cluster holding `a@x.com` / `111`. -/
def noveltyCluster : List Contact :=
  [⟨1, some "a@x.com", some "111", none, LinkPrecedence.primary, 10⟩]

/-- Two independent primaries, the newer one with a secondary, bridged by a
request carrying one field of each. -/
def mergeW1 : Contact := ⟨1, some "a@x.com", some "111", none, LinkPrecedence.primary, 10⟩

def mergeW2 : Contact := ⟨2, some "b@x.com", some "222", none, LinkPrecedence.primary, 15⟩

def mergeW3 : Contact := ⟨3, some "c@x.com", none, some 2, LinkPrecedence.secondary, 16⟩

def mergeStoreW : DB := ⟨[mergeW1, mergeW2, mergeW3], 4, 20⟩

/-- A single dangling secondary: its `linkedId` target 99 does not exist. -/
def orphanW : Contact := ⟨1, some "o@x.com", some "333", some 99, LinkPrecedence.secondary, 10⟩

def orphanStoreW : DB := ⟨[orphanW], 2, 20⟩

/-- A resolved cluster that already carries both fields of the repeated
request. -/
def idemW1 : Contact := ⟨1, some "a@x.com", some "111", none, LinkPrecedence.primary, 10⟩

def idemW2 : Contact := ⟨2, some "b@x.com", some "111", some 1, LinkPrecedence.secondary, 12⟩

def idemStoreW : DB := ⟨[idemW1, idemW2], 3, 20⟩

/-- A cluster list whose first two entries are both marked primary. -/
def twoPrimA : Contact := ⟨1, some "p@x.com", none, none, LinkPrecedence.primary, 12⟩

def twoPrimB : Contact := ⟨2, some "q@x.com", none, none, LinkPrecedence.primary, 10⟩

/-! ## Properties of the stable sort by `createdAt` -/

lemma insertByCreatedAt_perm (c : Contact) (l : List Contact) :
    List.Perm (insertByCreatedAt c l) (c :: l) := by
  induction l with
  | nil => simp [insertByCreatedAt]
  | cons d ds ih =>
    simp only [insertByCreatedAt]
    split
    · exact (ih.cons d).trans (List.Perm.swap c d ds)
    · exact List.Perm.refl _

lemma sortByCreatedAt_perm (l : List Contact) : List.Perm (sortByCreatedAt l) l := by
  induction l with
  | nil => simp [sortByCreatedAt]
  | cons c cs ih =>
    simpa [sortByCreatedAt] using
      (insertByCreatedAt_perm c (sortByCreatedAt cs)).trans (ih.cons c)

lemma sortByCreatedAt_ne_nil {l : List Contact} (h : l ≠ []) :
    sortByCreatedAt l ≠ [] := by
  intro hs
  have hp := sortByCreatedAt_perm l
  rw [hs] at hp
  exact h hp.symm.eq_nil

lemma insertByCreatedAt_pairwise {c : Contact} {l : List Contact}
    (h : l.Pairwise fun a b => a.createdAt ≤ b.createdAt) :
    (insertByCreatedAt c l).Pairwise fun a b => a.createdAt ≤ b.createdAt := by
  induction l with
  | nil => simp [insertByCreatedAt]
  | cons d ds ih =>
    rcases List.pairwise_cons.mp h with ⟨hd, hds⟩
    by_cases hdc : d.createdAt < c.createdAt
    · simp only [insertByCreatedAt, if_pos hdc]
      refine List.pairwise_cons.mpr ⟨?_, ih hds⟩
      intro x hx
      rcases List.mem_cons.mp ((insertByCreatedAt_perm c ds).mem_iff.mp hx) with rfl | hx'
      · omega
      · exact hd x hx'
    · simp only [insertByCreatedAt, if_neg hdc]
      refine List.pairwise_cons.mpr ⟨?_, h⟩
      intro x hx
      rcases List.mem_cons.mp hx with rfl | hx'
      · omega
      · exact le_trans (by omega) (hd x hx')

lemma sortByCreatedAt_pairwise (l : List Contact) :
    (sortByCreatedAt l).Pairwise fun a b => a.createdAt ≤ b.createdAt := by
  induction l with
  | nil => simp [sortByCreatedAt]
  | cons c cs ih => exact insertByCreatedAt_pairwise ih

/-- The head of the stable sort has the minimal `createdAt` of the list. -/
lemma sortByCreatedAt_head_min {l : List Contact} {m : Contact} {t : List Contact}
    (hs : sortByCreatedAt l = m :: t) :
    ∀ x ∈ l, m.createdAt ≤ x.createdAt := by
  intro x hx
  have hmem : x ∈ m :: t := hs ▸ (sortByCreatedAt_perm l).symm.mem_iff.mp hx
  rcases List.mem_cons.mp hmem with rfl | hmem
  · exact le_refl _
  · have := sortByCreatedAt_pairwise l
    rw [hs] at this
    exact (List.pairwise_cons.mp this).1 x hmem

/-- Sorting a two-element list whose timestamps are equal keeps the order:
the stable sort never reorders ties. -/
lemma sortByCreatedAt_pair_eq {a b : Contact} (h : a.createdAt = b.createdAt) :
    sortByCreatedAt [a, b] = [a, b] := by
  simp [sortByCreatedAt, insertByCreatedAt, h]

/-! ## Termination and output of the upward traversal -/

lemma filter_notMem_cons_length {l : List Nat} (hl : l.Nodup) {a : Nat}
    {traced : List Nat} (ha : a ∈ l) (hna : a ∉ traced) :
    (l.filter fun i => decide (i ∉ (a :: traced))).length + 1
      = (l.filter fun i => decide (i ∉ traced)).length := by
  induction l with
  | nil => cases ha
  | cons b bs ih =>
    rcases List.nodup_cons.mp hl with ⟨hb, hbs⟩
    rw [List.filter_cons, List.filter_cons]
    rcases List.mem_cons.mp ha with heq | ha'
    · subst heq
      have hfeq : (bs.filter fun i => decide (i ∉ (a :: traced)))
          = bs.filter fun i => decide (i ∉ traced) := by
        apply List.filter_congr
        intro x hx
        have hxa : x ≠ a := fun h => hb (h ▸ hx)
        simp [hxa]
      have h1 : (decide (a ∉ (a :: traced))) = false := by simp
      have h2 : (decide (a ∉ traced)) = true := by simpa using hna
      rw [h1, h2, if_neg Bool.false_ne_true, if_pos rfl, hfeq, List.length_cons]
    · have hab : a ≠ b := fun h => hb (h ▸ ha')
      have hba : ¬ b = a := fun h => hab h.symm
      by_cases hbt : b ∈ traced
      · have h1 : (decide (b ∉ (a :: traced))) = false := by simp [hbt]
        have h2 : (decide (b ∉ traced)) = false := by simp [hbt]
        rw [h1, h2, if_neg Bool.false_ne_true, if_neg Bool.false_ne_true]
        exact ih hbs ha'
      · have h1 : (decide (b ∉ (a :: traced))) = true := by
          simp [List.mem_cons, hba, hbt]
        have h2 : (decide (b ∉ traced)) = true := by simp [hbt]
        rw [h1, h2, if_pos rfl, if_pos rfl, List.length_cons, List.length_cons]
        have := ih hbs ha'
        omega

/-- Sufficient fuel drains the traversal stack: the loop always terminates
because each contact id is visited at most once. -/
lemma findAllPrimaryIdsGo_isSome (db : DB) :
    ∀ fuel stack traced acc,
      (∀ c ∈ stack, c ∈ db.rows) →
      stack.length + 2 * untracedCount db traced < fuel →
      (findAllPrimaryIdsGo db fuel stack traced acc).isSome = true := by
  intro fuel
  induction fuel with
  | zero =>
    intro stack traced acc hsub h
    cases stack with
    | nil => simp [findAllPrimaryIdsGo]
    | cons c rest => omega
  | succ f ih =>
    intro stack traced acc hsub h
    cases stack with
    | nil => simp [findAllPrimaryIdsGo]
    | cons c rest =>
      have hc : c ∈ db.rows := hsub c (List.mem_cons_self c rest)
      have hrest : ∀ x ∈ rest, x ∈ db.rows := fun x hx => hsub x (List.mem_cons_of_mem _ hx)
      simp only [List.length_cons] at h
      simp only [findAllPrimaryIdsGo]
      by_cases htr : c.id ∈ traced
      · rw [if_pos htr]
        exact ih rest traced acc hrest (by omega)
      · rw [if_neg htr]
        have hcid : c.id ∈ (db.rows.map Contact.id).dedup :=
          List.mem_dedup.mpr (List.mem_map_of_mem Contact.id hc)
        have hcnt : untracedCount db (c.id :: traced) + 1 = untracedCount db traced :=
          filter_notMem_cons_length (List.nodup_dedup _) hcid htr
        by_cases hp : c.linkPrecedence = LinkPrecedence.primary
        · rw [if_pos hp]
          exact ih rest (c.id :: traced) (acc ++ [c.id]) hrest (by omega)
        · rw [if_neg hp]
          split
          · rename_i parent heq
            have hpmem : parent ∈ db.rows := by
              rcases Option.bind_eq_some.mp heq with ⟨lid, _, hfu⟩
              exact List.mem_of_find?_eq_some hfu
            refine ih (parent :: rest) (c.id :: traced) acc ?_ ?_
            · intro x hx
              rcases List.mem_cons.mp hx with rfl | hx'
              · exact hpmem
              · exact hrest x hx'
            · simp only [List.length_cons]
              omega
          · exact ih rest (c.id :: traced) acc hrest (by omega)

/-- Every id the traversal accumulates is the id of a primary row of the
store. -/
lemma findAllPrimaryIdsGo_primary (db : DB) :
    ∀ fuel stack traced acc out,
      (∀ c ∈ stack, c ∈ db.rows) →
      (∀ i ∈ acc, IsStoredPrimaryId db i) →
      findAllPrimaryIdsGo db fuel stack traced acc = some out →
      ∀ i ∈ out, IsStoredPrimaryId db i := by
  intro fuel
  induction fuel with
  | zero =>
    intro stack traced acc out hsub hacc hgo
    cases stack with
    | nil =>
      simp only [findAllPrimaryIdsGo, Option.some.injEq] at hgo
      exact hgo ▸ hacc
    | cons c rest => simp [findAllPrimaryIdsGo] at hgo
  | succ f ih =>
    intro stack traced acc out hsub hacc hgo
    cases stack with
    | nil =>
      simp only [findAllPrimaryIdsGo, Option.some.injEq] at hgo
      exact hgo ▸ hacc
    | cons c rest =>
      have hc : c ∈ db.rows := hsub c (List.mem_cons_self c rest)
      have hrest : ∀ x ∈ rest, x ∈ db.rows := fun x hx => hsub x (List.mem_cons_of_mem _ hx)
      simp only [findAllPrimaryIdsGo] at hgo
      by_cases htr : c.id ∈ traced
      · rw [if_pos htr] at hgo
        exact ih rest traced acc out hrest hacc hgo
      · rw [if_neg htr] at hgo
        by_cases hp : c.linkPrecedence = LinkPrecedence.primary
        · rw [if_pos hp] at hgo
          refine ih rest (c.id :: traced) (acc ++ [c.id]) out hrest ?_ hgo
          intro i hi
          rcases List.mem_append.mp hi with hi' | hi'
          · exact hacc i hi'
          · rcases List.mem_singleton.mp hi' with rfl
            exact ⟨c, hc, rfl, hp⟩
        · rw [if_neg hp] at hgo
          split at hgo
          · rename_i parent heq
            have hpmem : parent ∈ db.rows := by
              rcases Option.bind_eq_some.mp heq with ⟨lid, _, hfu⟩
              exact List.mem_of_find?_eq_some hfu
            refine ih (parent :: rest) (c.id :: traced) acc out ?_ hacc hgo
            intro x hx
            rcases List.mem_cons.mp hx with rfl | hx'
            · exact hpmem
            · exact hrest x hx'
          · exact ih rest (c.id :: traced) acc out hrest hacc hgo

/-- The traversal used by `identify` always succeeds on matched contacts
drawn from the store, even in the presence of cycles or dangling
`linkedId` targets. -/
lemma findAllPrimaryContactIds_isSome (db : DB) (matchingContacts : List Contact)
    (hsub : ∀ c ∈ matchingContacts, c ∈ db.rows) :
    (findAllPrimaryContactIds db matchingContacts).isSome = true := by
  apply findAllPrimaryIdsGo_isSome
  · intro c hc
    exact hsub c (List.mem_reverse.mp hc)
  · have h1 : untracedCount db [] ≤ db.rows.length := by
      unfold untracedCount
      calc ((db.rows.map Contact.id).dedup.filter fun i => decide (i ∉ ([] : List Nat))).length
          ≤ (db.rows.map Contact.id).dedup.length := List.length_filter_le _ _
        _ ≤ (db.rows.map Contact.id).length := (List.dedup_sublist _).length_le
        _ = db.rows.length := List.length_map _ _
    simp only [traceFuel, List.length_reverse]
    omega

lemma findAllPrimaryContactIds_primary (db : DB) {matchingContacts : List Contact}
    {out : List Nat} (hsub : ∀ c ∈ matchingContacts, c ∈ db.rows)
    (h : findAllPrimaryContactIds db matchingContacts = some out) :
    ∀ i ∈ out, IsStoredPrimaryId db i :=
  findAllPrimaryIdsGo_primary db _ _ _ _ _
    (fun c hc => hsub c (List.mem_reverse.mp hc)) (by simp) h

/-! ## Ordered deduplication performed by the view builder -/

lemma filter_notMem_append_singleton (l acc : List String) (s : String) :
    (l.filter fun t => !t.isEmpty && decide (t ∉ acc ++ [s]))
      = (l.filter fun t => !t.isEmpty && decide (t ∉ acc)).filter
          fun t => decide (t ≠ s) := by
  rw [List.filter_filter]
  apply List.filter_congr
  intro x hx
  by_cases hxs : x = s
  · simp [hxs]
  · simp [hxs, List.mem_append]

lemma foldl_pushIfNew_eq (l : List (Option String)) :
    ∀ acc, l.foldl pushIfNew acc
      = acc ++ keepFirstOccurrences
          ((l.filterMap id).filter fun s => !s.isEmpty && decide (s ∉ acc)) := by
  induction l with
  | nil => intro acc; simp [keepFirstOccurrences]
  | cons v rest ih =>
    intro acc
    cases v with
    | none => simpa [pushIfNew] using ih acc
    | some s =>
      have hfm : (List.filterMap id (some s :: rest)) = s :: List.filterMap id rest := by
        simp
      by_cases hse : s.isEmpty
      · have hpush : pushIfNew acc (some s) = acc := by simp [pushIfNew, hse]
        have hcond : (!s.isEmpty && decide (s ∉ acc)) = false := by simp [hse]
        simp only [List.foldl_cons, hpush, hfm, List.filter_cons,
          hcond, if_neg Bool.false_ne_true]
        exact ih acc
      · by_cases hmem : s ∈ acc
        · have hpush : pushIfNew acc (some s) = acc := by
            simp [pushIfNew, hse, List.contains, hmem]
          have hcond : (!s.isEmpty && decide (s ∉ acc)) = false := by simp [hmem]
          simp only [List.foldl_cons, hpush, hfm, List.filter_cons,
            hcond, if_neg Bool.false_ne_true]
          exact ih acc
        · have hpush : pushIfNew acc (some s) = acc ++ [s] := by
            simp [pushIfNew, hse, List.contains, hmem]
          have hcond : (!s.isEmpty && decide (s ∉ acc)) = true := by simp [hse, hmem]
          simp only [List.foldl_cons, hpush, hfm, List.filter_cons, hcond, if_pos rfl]
          rw [ih (acc ++ [s]), filter_notMem_append_singleton]
          simp [keepFirstOccurrences]

lemma foldl_pushIfNew_proj (f : Contact → Option String) (prim : Contact)
    (secs : List Contact) :
    secs.foldl (fun acc d => pushIfNew acc (f d)) (pushIfNew [] (f prim))
      = orderedValues (f prim) (secs.map f) := by
  have h1 : pushIfNew [] (f prim) = List.foldl pushIfNew [] [f prim] := by simp
  have h2 : secs.foldl (fun acc d => pushIfNew acc (f d)) (List.foldl pushIfNew [] [f prim])
      = (secs.map f).foldl pushIfNew (List.foldl pushIfNew [] [f prim]) :=
    (List.foldl_map f pushIfNew secs (List.foldl pushIfNew [] [f prim])).symm
  rw [h1, h2, ← List.foldl_append, List.singleton_append,
    foldl_pushIfNew_eq, List.nil_append, orderedValues]
  congr 1
  apply List.filter_congr
  intro x hx
  simp

/-- Closed form of the view builder on a non-empty cluster. -/
lemma buildResponseFromContacts_cons (c : Contact) (cs : List Contact) :
    buildResponseFromContacts (c :: cs) = some
      { primaryContactId := (clusterPrimary c cs).id,
        emails := orderedValues (clusterPrimary c cs).email
          (((c :: cs).filter fun d => d.id ≠ (clusterPrimary c cs).id).map Contact.email),
        phoneNumbers := orderedValues (clusterPrimary c cs).phoneNumber
          (((c :: cs).filter fun d => d.id ≠ (clusterPrimary c cs).id).map
            Contact.phoneNumber),
        secondaryContactIds := ((c :: cs).map Contact.id).filter
          fun i => i ≠ (clusterPrimary c cs).id } := by
  simp only [buildResponseFromContacts]
  rw [foldl_pushIfNew_proj Contact.email, foldl_pushIfNew_proj Contact.phoneNumber]

/-! ## Selecting a cluster's primary -/

lemma find?_primary_eq_of_unique {l : List Contact} {p : Contact}
    (hp : p ∈ l) (hprim : p.linkPrecedence = LinkPrecedence.primary)
    (huniq : ∀ q ∈ l, q.linkPrecedence = LinkPrecedence.primary → q = p) :
    l.find? (fun d => d.linkPrecedence == LinkPrecedence.primary) = some p := by
  induction l with
  | nil => cases hp
  | cons b bs ih =>
    by_cases hb : b.linkPrecedence = LinkPrecedence.primary
    · rw [List.find?_cons_of_pos _ (by simp [hb])]
      exact congrArg some (huniq b (List.mem_cons_self b bs) hb)
    · rw [List.find?_cons_of_neg _ (by simp [hb])]
      refine ih ?_ fun q hq hq2 => huniq q (List.mem_cons_of_mem _ hq) hq2
      rcases List.mem_cons.mp hp with rfl | h
      · exact absurd hprim hb
      · exact h

lemma clusterPrimary_eq_of_unique {c : Contact} {cs : List Contact} {p : Contact}
    (hp : p ∈ c :: cs) (hprim : p.linkPrecedence = LinkPrecedence.primary)
    (huniq : ∀ q ∈ c :: cs, q.linkPrecedence = LinkPrecedence.primary → q = p) :
    clusterPrimary c cs = p := by
  unfold clusterPrimary
  rw [find?_primary_eq_of_unique hp hprim huniq]

lemma eq_of_id_eq {rows : List Contact}
    (hnd : (rows.map Contact.id).Nodup) {x y : Contact}
    (hx : x ∈ rows) (hy : y ∈ rows) (hxy : x.id = y.id) : x = y :=
  List.inj_on_of_nodup_map hnd hx hy hxy

lemma mem_getAllRelatedContacts {db : DB} {i : Nat} {c : Contact} :
    c ∈ getAllRelatedContacts db i ↔ c ∈ db.rows ∧ (c.id = i ∨ c.linkedId = some i) := by
  simp [getAllRelatedContacts, List.mem_filter]

lemma mem_fetchPrimaryContacts {db : DB} {pids : List Nat} {x : Contact} :
    x ∈ fetchPrimaryContacts db pids ↔ x ∈ db.rows ∧ x.id ∈ pids := by
  unfold fetchPrimaryContacts
  rw [(sortByCreatedAt_perm _).mem_iff]
  simp [List.mem_filter]

lemma fetchPrimaryContacts_ids_nodup {db : DB} (hnd : IdsNodup db) (pids : List Nat) :
    ((fetchPrimaryContacts db pids).map Contact.id).Nodup := by
  have hperm : List.Perm ((fetchPrimaryContacts db pids).map Contact.id)
      ((db.rows.filter fun c => decide (c.id ∈ pids)).map Contact.id) :=
    (sortByCreatedAt_perm _).map _
  exact hperm.nodup_iff.mpr
    (((List.filter_sublist db.rows).map Contact.id).nodup hnd)

lemma matchingContacts_sub (db : DB) (e p : Option String) :
    ∀ c ∈ findMatchingContacts db e p, c ∈ db.rows := by
  intro c hc
  exact (List.mem_filter.mp hc).1

/-! ## Unfolding `identify` along its branches -/

lemma identify_eq_of_resolve {db : DB} {e p : Option String} {pc : Contact} {db1 : DB}
    (hne : findMatchingContacts db e p ≠ [])
    (hres : resolvePrimaryContact db (findMatchingContacts db e p) = some (pc, db1)) :
    identify db e p =
      (if shouldCreateSecondaryContact (getAllRelatedContacts db1 pc.id) e p then
        (buildResponseFromContacts
            (getAllRelatedContacts db1 pc.id ++ [(createSecondaryContact db1 e p pc.id).1])).map
          fun r => (r, (createSecondaryContact db1 e p pc.id).2)
      else
        (buildResponseFromContacts (getAllRelatedContacts db1 pc.id)).map
          fun r => (r, db1)) := by
  unfold identify
  rw [if_neg (fun h => hne (List.length_eq_zero.mp h)), hres, Option.some_bind]
  dsimp only
  by_cases hsc : shouldCreateSecondaryContact (getAllRelatedContacts db1 pc.id) e p
  · rw [if_pos hsc, if_pos hsc]
  · rw [if_neg hsc, if_neg hsc]

/-! ## Branches of the cluster resolver -/

lemma resolve_eq_merge {db : DB} {ms : List Contact} {pids : List Nat}
    {p0 p1 : Contact} {rest : List Contact}
    (hpids : findAllPrimaryContactIds db ms = some pids)
    (hfetch : fetchPrimaryContacts db pids = p0 :: p1 :: rest) :
    resolvePrimaryContact db ms
      = some (p0, mergePrimaryContacts db (p0 :: p1 :: rest)) := by
  unfold resolvePrimaryContact
  rw [hpids, Option.some_bind, hfetch]
  simp

lemma resolve_eq_single {db : DB} {ms : List Contact} {pids : List Nat}
    {p0 : Contact}
    (hpids : findAllPrimaryContactIds db ms = some pids)
    (hfetch : fetchPrimaryContacts db pids = [p0]) :
    resolvePrimaryContact db ms = some (p0, db) := by
  unfold resolvePrimaryContact
  rw [hpids, Option.some_bind, hfetch]
  simp

lemma resolve_eq_orphan {db : DB} {ms : List Contact} {pids : List Nat}
    (hpids : findAllPrimaryContactIds db ms = some pids)
    (hfetch : fetchPrimaryContacts db pids = []) :
    resolvePrimaryContact db ms = handleOrphanedSecondaries db ms := by
  unfold resolvePrimaryContact
  rw [hpids, Option.some_bind, hfetch]

lemma handleOrphaned_eq_promote {db : DB} {ms : List Contact} {o : Contact}
    {t : List Contact} (hs : sortByCreatedAt ms = o :: t)
    (hns : o.linkPrecedence ≠ LinkPrecedence.primary) :
    handleOrphanedSecondaries db ms
      = some (promote o,
              { db with rows := db.rows.map fun c =>
                  if c.id = o.id then promote o else c }) := by
  unfold handleOrphanedSecondaries
  rw [hs]
  simp [hns]

lemma handleOrphaned_eq_self {db : DB} {ms : List Contact} {o : Contact}
    {t : List Contact} (hs : sortByCreatedAt ms = o :: t)
    (hp : o.linkPrecedence = LinkPrecedence.primary) :
    handleOrphanedSecondaries db ms = some (o, db) := by
  unfold handleOrphanedSecondaries
  rw [hs]
  simp [hp]

/-! ## Generic facts about batch row updates -/

lemma map_rows_ids (rows : List Contact) (f : Contact → Contact)
    (hf : ∀ c, (f c).id = c.id) :
    (rows.map f).map Contact.id = rows.map Contact.id := by
  rw [List.map_map]
  exact List.map_congr_left fun c _ => hf c

/-! ## Invariant preservation of the three mutation shapes -/

lemma contains_eq_false_of_not_mem {l : List Nat} {a : Nat} (h : a ∉ l) :
    l.contains a = false := by
  simp [List.contains, h]

lemma fetched_primary {db : DB} {pids : List Nat} (hnd : IdsNodup db)
    (hprim : ∀ i ∈ pids, IsStoredPrimaryId db i) :
    ∀ x ∈ fetchPrimaryContacts db pids, x.linkPrecedence = LinkPrecedence.primary := by
  intro x hx
  rcases mem_fetchPrimaryContacts.mp hx with ⟨hxr, hxid⟩
  rcases hprim x.id hxid with ⟨r, hr, hrid, hrp⟩
  have hxr_eq : x = r := eq_of_id_eq hnd hxr hr hrid.symm
  rw [hxr_eq]
  exact hrp

lemma mergePrimaryContacts_rows_eq (db : DB) (p0 : Contact) (others : List Contact) :
    (mergePrimaryContacts db (p0 :: others)).rows
      = db.rows.map fun c =>
          if mergeCond (others.map Contact.id) c then demote p0.id c else c := rfl


lemma mergeCond_id (oids : List Nat) (sid : Nat) (c : Contact) :
    ((if mergeCond oids c then demote sid c else c) : Contact).id = c.id := by
  by_cases h : mergeCond oids c = true
  · rw [if_pos h]; rfl
  · rw [if_neg h]

lemma mem_merged_of_cond_false {db : DB} {p0 : Contact} {others : List Contact}
    {c : Contact} (hc : c ∈ db.rows)
    (h : mergeCond (others.map Contact.id) c = false) :
    c ∈ (mergePrimaryContacts db (p0 :: others)).rows := by
  rw [mergePrimaryContacts_rows_eq]
  exact List.mem_map.mpr ⟨c, hc, by rw [if_neg (by rw [h]; exact Bool.false_ne_true)]⟩

lemma mem_merged_of_cond_true {db : DB} {p0 : Contact} {others : List Contact}
    {c : Contact} (hc : c ∈ db.rows)
    (h : mergeCond (others.map Contact.id) c = true) :
    demote p0.id c ∈ (mergePrimaryContacts db (p0 :: others)).rows := by
  rw [mergePrimaryContacts_rows_eq]
  exact List.mem_map.mpr ⟨c, hc, by rw [if_pos h]⟩

lemma mem_merged_inv {db : DB} {p0 : Contact} {others : List Contact} {c' : Contact}
    (hc' : c' ∈ (mergePrimaryContacts db (p0 :: others)).rows) :
    ∃ c ∈ db.rows,
      (mergeCond (others.map Contact.id) c = true ∧ c' = demote p0.id c)
        ∨ (mergeCond (others.map Contact.id) c = false ∧ c' = c) := by
  rw [mergePrimaryContacts_rows_eq] at hc'
  rcases List.mem_map.mp hc' with ⟨c, hc, hceq⟩
  refine ⟨c, hc, ?_⟩
  by_cases h : mergeCond (others.map Contact.id) c = true
  · rw [if_pos h] at hceq
    exact Or.inl ⟨h, hceq.symm⟩
  · rw [if_neg h] at hceq
    exact Or.inr ⟨Bool.eq_false_iff.mpr h, hceq.symm⟩

lemma merged_ids (db : DB) (p0 : Contact) (others : List Contact) :
    ((mergePrimaryContacts db (p0 :: others)).rows.map Contact.id)
      = db.rows.map Contact.id := by
  rw [mergePrimaryContacts_rows_eq]
  exact map_rows_ids db.rows _ (mergeCond_id (others.map Contact.id) p0.id)

lemma merge_preserves_wf {db : DB} {pids : List Nat} {p0 p1 : Contact}
    {rest : List Contact} (hwf : WellFormed db)
    (hprim : ∀ i ∈ pids, IsStoredPrimaryId db i)
    (hfetch : fetchPrimaryContacts db pids = p0 :: p1 :: rest) :
    WellFormed (mergePrimaryContacts db (p0 :: p1 :: rest))
      ∧ p0 ∈ (mergePrimaryContacts db (p0 :: p1 :: rest)).rows
      ∧ p0.linkPrecedence = LinkPrecedence.primary
      ∧ (mergePrimaryContacts db (p0 :: p1 :: rest)).nextId = db.nextId
      ∧ (mergePrimaryContacts db (p0 :: p1 :: rest)).now = db.now := by
  obtain ⟨hinv1, hinv2, hnd, hfr⟩ := hwf
  have hp0fetch : p0 ∈ fetchPrimaryContacts db pids := by
    rw [hfetch]; exact List.mem_cons_self _ _
  obtain ⟨hp0r, hp0id⟩ := mem_fetchPrimaryContacts.mp hp0fetch
  have hp0p : p0.linkPrecedence = LinkPrecedence.primary :=
    fetched_primary hnd hprim p0 hp0fetch
  have hp0l : p0.linkedId = none := hinv1 p0 hp0r hp0p
  have hfnd : ((p0 :: p1 :: rest).map Contact.id).Nodup := by
    rw [← hfetch]; exact fetchPrimaryContacts_ids_nodup hnd pids
  have hp0nid : p0.id ∉ ((p1 :: rest).map Contact.id) := by
    rw [List.map_cons] at hfnd
    exact (List.nodup_cons.mp hfnd).1
  have hcond0 : mergeCond ((p1 :: rest).map Contact.id) p0 = false := by
    rw [mergeCond, contains_eq_false_of_not_mem hp0nid, hp0l]
    rfl
  have hp0mem : p0 ∈ (mergePrimaryContacts db (p0 :: p1 :: rest)).rows :=
    mem_merged_of_cond_false hp0r hcond0
  refine ⟨⟨?_, ?_, ?_, ?_⟩, hp0mem, hp0p, rfl, rfl⟩
  · -- PrimaryNoLink is preserved
    intro c' hc' hp'
    rcases mem_merged_inv hc' with ⟨c, hc, ⟨_, hceq⟩ | ⟨_, hceq⟩⟩
    · rw [hceq] at hp'
      exact absurd hp' (by simp [demote])
    · rw [hceq]
      rw [hceq] at hp'
      exact hinv1 c hc hp'
  · -- SecondaryLinksPrimary is preserved
    intro c' hc' hs'
    rcases mem_merged_inv hc' with ⟨c, hc, ⟨_, hceq⟩ | ⟨hcf, hceq⟩⟩
    · refine ⟨p0, hp0mem, ?_, hp0p⟩
      rw [hceq]
      rfl
    · rw [hceq] at hs'
      rcases hinv2 c hc hs' with ⟨q, hq, hqlink, hqp⟩
      have hql : q.linkedId = none := hinv1 q hq hqp
      have hqid : q.id ∉ ((p1 :: rest).map Contact.id) := by
        intro hmemq
        have hct : linkedIdIn c.linkedId ((p1 :: rest).map Contact.id) = true := by
          rw [hqlink]
          have hcq : ((p1 :: rest).map Contact.id).contains q.id = true := by
            simpa [List.contains] using hmemq
          simpa [linkedIdIn] using hcq
        have hmc : mergeCond ((p1 :: rest).map Contact.id) c = true := by
          rw [mergeCond, hct, Bool.or_true]
        rw [hmc] at hcf
        exact Bool.noConfusion hcf
      have hqcond : mergeCond ((p1 :: rest).map Contact.id) q = false := by
        rw [mergeCond, contains_eq_false_of_not_mem hqid, hql]
        rfl
      exact ⟨q, mem_merged_of_cond_false hq hqcond, hceq ▸ hqlink, hqp⟩
  · -- IdsNodup is preserved
    unfold IdsNodup
    rw [merged_ids]
    exact hnd
  · -- IdsFresh is preserved
    intro c' hc'
    rcases mem_merged_inv hc' with ⟨c, hc, ⟨_, hceq⟩ | ⟨_, hceq⟩⟩
    · rw [hceq]
      exact hfr c hc
    · rw [hceq]
      exact hfr c hc

lemma promote_id_fn (o : Contact) :
    ∀ c : Contact, ((if c.id = o.id then promote o else c) : Contact).id = c.id := by
  intro c
  by_cases h : c.id = o.id
  · rw [if_pos h]
    simp [promote, h]
  · rw [if_neg h]

lemma promote_preserves_wf {db : DB} {o : Contact}
    (hwf : WellFormed db) (ho : o ∈ db.rows)
    (hos : o.linkPrecedence = LinkPrecedence.secondary) :
    WellFormed { db with rows := db.rows.map fun c => if c.id = o.id then promote o else c }
      ∧ promote o ∈ (db.rows.map fun c => if c.id = o.id then promote o else c) := by
  obtain ⟨hinv1, hinv2, hnd, hfr⟩ := hwf
  have hmemP : promote o ∈ db.rows.map fun c => if c.id = o.id then promote o else c :=
    List.mem_map.mpr ⟨o, ho, by rw [if_pos rfl]⟩
  refine ⟨⟨?_, ?_, ?_, ?_⟩, hmemP⟩
  · intro c' hc' hp'
    rcases List.mem_map.mp hc' with ⟨c, hc, hceq⟩
    by_cases h : c.id = o.id
    · rw [if_pos h] at hceq
      rw [← hceq]
      rfl
    · rw [if_neg h] at hceq
      rw [← hceq] at hp' ⊢
      exact hinv1 c hc hp'
  · intro c' hc' hs'
    rcases List.mem_map.mp hc' with ⟨c, hc, hceq⟩
    by_cases h : c.id = o.id
    · rw [if_pos h] at hceq
      rw [← hceq] at hs'
      exact absurd hs' (by simp [promote])
    · rw [if_neg h] at hceq
      rw [← hceq] at hs'
      rcases hinv2 c hc hs' with ⟨q, hq, hqlink, hqp⟩
      have hqno : q.id ≠ o.id := by
        intro hqo
        have hqe : q = o := eq_of_id_eq hnd hq ho hqo
        rw [hqe, hos] at hqp
        exact LinkPrecedence.noConfusion hqp
      refine ⟨q, List.mem_map.mpr ⟨q, hq, by rw [if_neg hqno]⟩, ?_, hqp⟩
      rw [← hceq]
      exact hqlink
  · show ((db.rows.map fun c => if c.id = o.id then promote o else c).map Contact.id).Nodup
    rw [map_rows_ids db.rows _ (promote_id_fn o)]
    exact hnd
  · intro c' hc'
    rcases List.mem_map.mp hc' with ⟨c, hc, hceq⟩
    have hcid : c'.id = c.id := by rw [← hceq]; exact promote_id_fn o c
    rw [hcid]
    exact hfr c hc

lemma createContact_rows (db : DB) (e p : Option String) (li : Option Nat)
    (lp : LinkPrecedence) :
    (createContact db e p li lp).2.rows
      = db.rows ++ [(createContact db e p li lp).1] := rfl

lemma create_preserves_wf {db : DB} {e p : Option String} {li : Option Nat}
    {lp : LinkPrecedence} (hwf : WellFormed db)
    (hsec : lp = LinkPrecedence.secondary →
      ∃ q ∈ db.rows, li = some q.id ∧ q.linkPrecedence = LinkPrecedence.primary)
    (hpri : lp = LinkPrecedence.primary → li = none) :
    WellFormed (createContact db e p li lp).2 := by
  obtain ⟨hinv1, hinv2, hnd, hfr⟩ := hwf
  refine ⟨?_, ?_, ?_, ?_⟩
  · intro c' hc' hp'
    rw [createContact_rows] at hc'
    rcases List.mem_append.mp hc' with h | h
    · exact hinv1 c' h hp'
    · rcases List.mem_singleton.mp h with rfl
      exact hpri hp'
  · intro c' hc' hs'
    rw [createContact_rows] at hc'
    rcases List.mem_append.mp hc' with h | h
    · rcases hinv2 c' h hs' with ⟨q, hq, hql, hqp⟩
      exact ⟨q, by rw [createContact_rows]; exact List.mem_append_left _ hq, hql, hqp⟩
    · rcases List.mem_singleton.mp h with rfl
      rcases hsec hs' with ⟨q, hq, hql, hqp⟩
      exact ⟨q, by rw [createContact_rows]; exact List.mem_append_left _ hq, hql, hqp⟩
  · show (((createContact db e p li lp).2.rows).map Contact.id).Nodup
    rw [createContact_rows, List.map_append]
    refine List.Nodup.append hnd (List.nodup_singleton _) ?_
    intro a ha hb
    have ha' : a < db.nextId := by
      rcases List.mem_map.mp ha with ⟨c, hc, hceq⟩
      rw [← hceq]
      exact hfr c hc
    have hb' : a = db.nextId := by
      simpa [createContact] using hb
    omega
  · intro c' hc'
    rw [createContact_rows] at hc'
    rcases List.mem_append.mp hc' with h | h
    · exact Nat.lt_succ_of_lt (hfr c' h)
    · rcases List.mem_singleton.mp h with rfl
      exact Nat.lt_succ_self _

/-- After `resolvePrimaryContact` succeeds on a well-formed store, the store
is still well-formed and the returned contact is a primary row of it. -/
lemma resolve_preserves {db : DB} {ms : List Contact} {pc : Contact} {db1 : DB}
    (hwf : WellFormed db) (hsub : ∀ c ∈ ms, c ∈ db.rows)
    (hres : resolvePrimaryContact db ms = some (pc, db1)) :
    WellFormed db1 ∧ pc ∈ db1.rows ∧ pc.linkPrecedence = LinkPrecedence.primary
      ∧ db1.nextId = db.nextId ∧ db1.now = db.now := by
  cases hpids0 : findAllPrimaryContactIds db ms with
  | none =>
    unfold resolvePrimaryContact at hres
    rw [hpids0] at hres
    simp at hres
  | some pids =>
    have hprim : ∀ i ∈ pids, IsStoredPrimaryId db i :=
      findAllPrimaryContactIds_primary db hsub hpids0
    cases hfetch : fetchPrimaryContacts db pids with
    | nil =>
      rw [resolve_eq_orphan hpids0 hfetch] at hres
      cases hs : sortByCreatedAt ms with
      | nil =>
        unfold handleOrphanedSecondaries at hres
        rw [hs] at hres
        simp at hres
      | cons o t =>
        have homem : o ∈ db.rows := by
          apply hsub
          have : o ∈ sortByCreatedAt ms := by rw [hs]; exact List.mem_cons_self _ _
          exact (sortByCreatedAt_perm ms).mem_iff.mp this
        by_cases ho : o.linkPrecedence = LinkPrecedence.primary
        · rw [handleOrphaned_eq_self hs ho] at hres
          have h := Option.some.inj hres
          have hpc : o = pc := congrArg Prod.fst h
          have hdb : db = db1 := congrArg Prod.snd h
          subst hpc
          subst hdb
          exact ⟨hwf, homem, ho, rfl, rfl⟩
        · rw [handleOrphaned_eq_promote hs ho] at hres
          have h := Option.some.inj hres
          have hpc : promote o = pc := congrArg Prod.fst h
          have hdb : { db with rows := db.rows.map fun c =>
              if c.id = o.id then promote o else c } = db1 := congrArg Prod.snd h
          subst hpc
          subst hdb
          have hos : o.linkPrecedence = LinkPrecedence.secondary := by
            cases hlp : o.linkPrecedence
            · exact absurd hlp ho
            · rfl
          obtain ⟨hwf', hmem'⟩ := promote_preserves_wf hwf homem hos
          exact ⟨hwf', hmem', rfl, rfl, rfl⟩
    | cons p0 rest0 =>
      cases rest0 with
      | nil =>
        rw [resolve_eq_single hpids0 hfetch] at hres
        have h := Option.some.inj hres
        have hpc : p0 = pc := congrArg Prod.fst h
        have hdb : db = db1 := congrArg Prod.snd h
        subst hpc
        subst hdb
        have hmem : p0 ∈ fetchPrimaryContacts db pids := by
          rw [hfetch]; exact List.mem_cons_self _ _
        exact ⟨hwf, (mem_fetchPrimaryContacts.mp hmem).1,
          fetched_primary hwf.2.2.1 hprim p0 hmem, rfl, rfl⟩
      | cons p1 rest =>
        rw [resolve_eq_merge hpids0 hfetch] at hres
        have h := Option.some.inj hres
        have hpc : p0 = pc := congrArg Prod.fst h
        have hdb : mergePrimaryContacts db (p0 :: p1 :: rest) = db1 := congrArg Prod.snd h
        subst hpc
        subst hdb
        obtain ⟨hwf', hmem', hp', hnext', hnow'⟩ := merge_preserves_wf hwf hprim hfetch
        exact ⟨hwf', hmem', hp', hnext', hnow'⟩

/-- When the resolver returns a primary row of a store whose primaries carry
no link and whose ids are unique, `identify` completes and reports that
row's id as `primaryContactId`; the store either stays as the resolver left
it or gains exactly the one new secondary row. -/
lemma identify_some_with_primary {db : DB} {e p : Option String} {pc : Contact}
    {db1 : DB}
    (hne : findMatchingContacts db e p ≠ [])
    (hres : resolvePrimaryContact db (findMatchingContacts db e p) = some (pc, db1))
    (hpc : pc ∈ db1.rows) (hpcp : pc.linkPrecedence = LinkPrecedence.primary)
    (hinv1 : PrimaryNoLink db1) (hnd1 : IdsNodup db1) :
    ∃ r db2, identify db e p = some (r, db2)
      ∧ r.primaryContactId = pc.id
      ∧ (shouldCreateSecondaryContact (getAllRelatedContacts db1 pc.id) e p = false →
          db2 = db1)
      ∧ (db2 = db1 ∨ db2 = (createSecondaryContact db1 e p pc.id).2) := by
  have hrelmem : pc ∈ getAllRelatedContacts db1 pc.id :=
    mem_getAllRelatedContacts.mpr ⟨hpc, Or.inl rfl⟩
  have huniq : ∀ q ∈ getAllRelatedContacts db1 pc.id,
      q.linkPrecedence = LinkPrecedence.primary → q = pc := by
    intro q hq hqp
    rcases mem_getAllRelatedContacts.mp hq with ⟨hqr, hqid | hqlink⟩
    · exact eq_of_id_eq hnd1 hqr hpc hqid
    · have hqn := hinv1 q hqr hqp
      rw [hqn] at hqlink
      exact Option.noConfusion hqlink
  cases hrel : getAllRelatedContacts db1 pc.id with
  | nil =>
    rw [hrel] at hrelmem
    cases hrelmem
  | cons x xs =>
    rw [hrel] at hrelmem huniq
    rw [identify_eq_of_resolve hne hres, hrel]
    by_cases hsc : shouldCreateSecondaryContact (x :: xs) e p = true
    · rw [if_pos hsc]
      have happ : (x :: xs) ++ [(createSecondaryContact db1 e p pc.id).1]
          = x :: (xs ++ [(createSecondaryContact db1 e p pc.id).1]) := rfl
      rw [happ, buildResponseFromContacts_cons, Option.map_some']
      have hmem' : pc ∈ x :: (xs ++ [(createSecondaryContact db1 e p pc.id).1]) := by
        rcases List.mem_cons.mp hrelmem with h | h
        · rw [h]; exact List.mem_cons_self _ _
        · exact List.mem_cons_of_mem _ (List.mem_append_left _ h)
      have huniq' : ∀ q ∈ x :: (xs ++ [(createSecondaryContact db1 e p pc.id).1]),
          q.linkPrecedence = LinkPrecedence.primary → q = pc := by
        intro q hq hqp
        rcases List.mem_cons.mp hq with rfl | h
        · exact huniq q (List.mem_cons_self _ _) hqp
        · rcases List.mem_append.mp h with h' | h'
          · exact huniq q (List.mem_cons_of_mem _ h') hqp
          · rcases List.mem_singleton.mp h' with rfl
            exact absurd hqp (by simp [createSecondaryContact, createContact])
      have hcp : clusterPrimary x (xs ++ [(createSecondaryContact db1 e p pc.id).1]) = pc :=
        clusterPrimary_eq_of_unique hmem' hpcp huniq'
      refine ⟨_, _, rfl, ?_, ?_, Or.inr rfl⟩
      · rw [hcp]
      · intro hf
        rw [hsc] at hf
        exact Bool.noConfusion hf
    · have hsc' : shouldCreateSecondaryContact (x :: xs) e p = false :=
        Bool.eq_false_iff.mpr hsc
      rw [if_neg hsc, buildResponseFromContacts_cons, Option.map_some']
      have hcp : clusterPrimary x xs = pc :=
        clusterPrimary_eq_of_unique hrelmem hpcp huniq
      refine ⟨_, db1, rfl, ?_, fun _ => rfl, Or.inl rfl⟩
      rw [hcp]

/-- The traversal never loses a primary contact that sits on its stack: its
id ends up in the output (or was already visited).  Requires unique ids so
that two stack entries with one id are the same row. -/
lemma findAllPrimaryIdsGo_complete (db : DB) (hnd : IdsNodup db) :
    ∀ fuel stack traced acc out,
      (∀ c ∈ stack, c ∈ db.rows) →
      findAllPrimaryIdsGo db fuel stack traced acc = some out →
      (∀ i ∈ acc, i ∈ out) ∧
      (∀ c ∈ stack, c.linkPrecedence = LinkPrecedence.primary →
        c.id ∈ out ∨ c.id ∈ traced) := by
  intro fuel
  induction fuel with
  | zero =>
    intro stack traced acc out hsub hgo
    cases stack with
    | nil =>
      simp only [findAllPrimaryIdsGo, Option.some.injEq] at hgo
      exact ⟨fun i hi => hgo ▸ hi, fun c hc => absurd hc (List.not_mem_nil c)⟩
    | cons c rest => simp [findAllPrimaryIdsGo] at hgo
  | succ f ih =>
    intro stack traced acc out hsub hgo
    cases stack with
    | nil =>
      simp only [findAllPrimaryIdsGo, Option.some.injEq] at hgo
      exact ⟨fun i hi => hgo ▸ hi, fun c hc => absurd hc (List.not_mem_nil c)⟩
    | cons c rest =>
      have hc : c ∈ db.rows := hsub c (List.mem_cons_self c rest)
      have hrest : ∀ x ∈ rest, x ∈ db.rows := fun x hx => hsub x (List.mem_cons_of_mem _ hx)
      simp only [findAllPrimaryIdsGo] at hgo
      by_cases htr : c.id ∈ traced
      · rw [if_pos htr] at hgo
        obtain ⟨hmono, hstack⟩ := ih rest traced acc out hrest hgo
        refine ⟨hmono, ?_⟩
        intro x hx hxp
        rcases List.mem_cons.mp hx with rfl | hx'
        · exact Or.inr htr
        · exact hstack x hx' hxp
      · rw [if_neg htr] at hgo
        by_cases hp : c.linkPrecedence = LinkPrecedence.primary
        · rw [if_pos hp] at hgo
          obtain ⟨hmono, hstack⟩ := ih rest (c.id :: traced) (acc ++ [c.id]) out hrest hgo
          have hcidout : c.id ∈ out := hmono c.id (List.mem_append_right _ (List.mem_singleton_self _))
          refine ⟨fun i hi => hmono i (List.mem_append_left _ hi), ?_⟩
          intro x hx hxp
          rcases List.mem_cons.mp hx with rfl | hx'
          · exact Or.inl hcidout
          · rcases hstack x hx' hxp with h | h
            · exact Or.inl h
            · rcases List.mem_cons.mp h with hxc | h'
              · rw [hxc]
                exact Or.inl hcidout
              · exact Or.inr h'
        · rw [if_neg hp] at hgo
          split at hgo
          · rename_i parent heq
            have hpmem : parent ∈ db.rows := by
              rcases Option.bind_eq_some.mp heq with ⟨lid, _, hfu⟩
              exact List.mem_of_find?_eq_some hfu
            have hsub' : ∀ x ∈ parent :: rest, x ∈ db.rows := by
              intro x hx
              rcases List.mem_cons.mp hx with rfl | hx'
              · exact hpmem
              · exact hrest x hx'
            obtain ⟨hmono, hstack⟩ := ih (parent :: rest) (c.id :: traced) acc out hsub' hgo
            refine ⟨hmono, ?_⟩
            intro x hx hxp
            rcases List.mem_cons.mp hx with rfl | hx'
            · exact absurd hxp hp
            · rcases hstack x (List.mem_cons_of_mem _ hx') hxp with h | h
              · exact Or.inl h
              · rcases List.mem_cons.mp h with hxc | h'
                · exfalso
                  have hxe : x = c := eq_of_id_eq hnd (hrest x hx') hc hxc
                  rw [hxe] at hxp
                  exact hp hxp
                · exact Or.inr h'
          · obtain ⟨hmono, hstack⟩ := ih rest (c.id :: traced) acc out hrest hgo
            refine ⟨hmono, ?_⟩
            intro x hx hxp
            rcases List.mem_cons.mp hx with rfl | hx'
            · exact absurd hxp hp
            · rcases hstack x hx' hxp with h | h
              · exact Or.inl h
              · rcases List.mem_cons.mp h with hxc | h'
                · exfalso
                  have hxe : x = c := eq_of_id_eq hnd (hrest x hx') hc hxc
                  rw [hxe] at hxp
                  exact hp hxp
                · exact Or.inr h'

/-- A primary matched contact always reaches the collected primary-id set. -/
lemma findAllPrimaryContactIds_complete {db : DB} {ms : List Contact} {out : List Nat}
    (hnd : IdsNodup db) (hsub : ∀ c ∈ ms, c ∈ db.rows)
    (h : findAllPrimaryContactIds db ms = some out) :
    ∀ c ∈ ms, c.linkPrecedence = LinkPrecedence.primary → c.id ∈ out := by
  intro c hc hcp
  have hrev : c ∈ ms.reverse := List.mem_reverse.mpr hc
  obtain ⟨_, hstack⟩ := findAllPrimaryIdsGo_complete db hnd _ ms.reverse [] [] out
    (fun x hx => hsub x (List.mem_reverse.mp hx)) h
  rcases hstack c hrev hcp with hout | hmem
  · exact hout
  · cases hmem

/-- Orphan promotion needs neither invariant 2 nor freshness: invariant 1
and id uniqueness survive on their own (the orphan path runs on stores
where invariant 2 is already broken). -/
lemma promote_inv1_nodup {db : DB} {o : Contact}
    (hinv1 : PrimaryNoLink db) (hnd : IdsNodup db) (ho : o ∈ db.rows) :
    PrimaryNoLink { db with rows := db.rows.map fun c =>
        if c.id = o.id then promote o else c }
      ∧ IdsNodup { db with rows := db.rows.map fun c =>
          if c.id = o.id then promote o else c }
      ∧ promote o ∈ (db.rows.map fun c => if c.id = o.id then promote o else c) := by
  refine ⟨?_, ?_, List.mem_map.mpr ⟨o, ho, by rw [if_pos rfl]⟩⟩
  · intro c' hc' hp'
    rcases List.mem_map.mp hc' with ⟨c, hc, hceq⟩
    by_cases h : c.id = o.id
    · rw [if_pos h] at hceq
      rw [← hceq]
      rfl
    · rw [if_neg h] at hceq
      rw [← hceq] at hp' ⊢
      exact hinv1 c hc hp'
  · show ((db.rows.map fun c => if c.id = o.id then promote o else c).map Contact.id).Nodup
    rw [map_rows_ids db.rows _ (promote_id_fn o)]
    exact hnd

/-! ## Claim theorems -/

/-- Claim C9: for every finite contact store — including stores whose
`linkedId` references form cycles or dangle to missing ids — the upward
traversal that collects the distinct primary contacts reachable from the
matched set terminates with a result (its fuel, accounted by visiting each
contact id at most once, never runs out), and missing `linkedId` targets
are skipped rather than causing failure. -/
theorem traversal_terminates (db : DB) (ms : List Contact)
    (hsub : ∀ c ∈ ms, c ∈ db.rows) :
    (findAllPrimaryContactIds db ms).isSome = true :=
  findAllPrimaryContactIds_isSome db ms hsub

/-- Witness for C9 on a store with a two-contact `linkedId` cycle and a
dangling reference. -/
theorem traversal_terminates_witness :
    (findAllPrimaryContactIds cyclicStore cyclicStore.rows).isSome = true :=
  traversal_terminates cyclicStore cyclicStore.rows fun _ hc => hc

/-- Claim C3: when the store list is ordered by ascending id (the model of
monotonically assigned primary keys) and the reachable primaries are two
contacts with equal `createdAt`, the resolver selects the one with the
lower id as the surviving primary of the merge; the selection is a pure
function of the stored data, hence deterministic across repeated runs. -/
theorem tiebreak_lower_id_survives {db : DB} {ms : List Contact}
    {pids : List Nat} {a b : Contact}
    (hsorted : db.rows.Pairwise fun x y => x.id < y.id)
    (hpids : findAllPrimaryContactIds db ms = some pids)
    (hfilter : (db.rows.filter fun c => decide (c.id ∈ pids)) = [a, b])
    (heq : a.createdAt = b.createdAt) :
    resolvePrimaryContact db ms = some (a, mergePrimaryContacts db [a, b])
      ∧ a.id < b.id := by
  have hfetch : fetchPrimaryContacts db pids = [a, b] := by
    unfold fetchPrimaryContacts
    rw [hfilter, sortByCreatedAt_pair_eq heq]
  have hid : a.id < b.id := by
    have hsubl : List.Sublist [a, b] db.rows := by
      rw [← hfilter]
      exact List.filter_sublist db.rows
    have hpw : ([a, b] : List Contact).Pairwise fun x y => x.id < y.id :=
      List.Pairwise.sublist hsubl hsorted
    rcases List.pairwise_cons.mp hpw with ⟨h1, _⟩
    exact h1 b (List.mem_cons_self b [])
  exact ⟨resolve_eq_merge hpids hfetch, hid⟩

/-- Witness for C3: two primaries created at the same instant; id 1
survives. -/
theorem tiebreak_lower_id_survives_witness :
    resolvePrimaryContact tieStore [tieA, tieB]
        = some (tieA, mergePrimaryContacts tieStore [tieA, tieB])
      ∧ tieA.id < tieB.id :=
  @tiebreak_lower_id_survives tieStore [tieA, tieB] [2, 1] tieA tieB
    (by decide) (by decide) (by decide) (by decide)

/-- Claim C10: on any non-empty cluster list the view builder takes the
first contact marked primary in list order as the cluster's primary (its
id becomes `primaryContactId`), and falls back to the oldest contact by
`createdAt` only when no contact in the list is marked primary. -/
theorem builder_primary_choice (c : Contact) (cs : List Contact) :
    ∃ r, buildResponseFromContacts (c :: cs) = some r
      ∧ (∀ q, (c :: cs).find? (fun d => d.linkPrecedence == LinkPrecedence.primary)
            = some q → r.primaryContactId = q.id)
      ∧ ((c :: cs).find? (fun d => d.linkPrecedence == LinkPrecedence.primary)
            = none →
          ∃ m t, sortByCreatedAt (c :: cs) = m :: t ∧ r.primaryContactId = m.id
            ∧ ∀ x ∈ c :: cs, m.createdAt ≤ x.createdAt) := by
  refine ⟨_, buildResponseFromContacts_cons c cs, ?_, ?_⟩
  · intro q hq
    show (clusterPrimary c cs).id = q.id
    unfold clusterPrimary
    rw [hq]
  · intro hnone
    have hne : sortByCreatedAt (c :: cs) ≠ [] := sortByCreatedAt_ne_nil (by simp)
    cases hs : sortByCreatedAt (c :: cs) with
    | nil => exact absurd hs hne
    | cons m t =>
      refine ⟨m, t, rfl, ?_, sortByCreatedAt_head_min hs⟩
      show (clusterPrimary c cs).id = m.id
      unfold clusterPrimary
      rw [hnone, hs]
      rfl

/-- Witness for C10 on a list whose two entries are both primary: the first
one is chosen. -/
theorem builder_primary_choice_witness :
    ∃ r, buildResponseFromContacts (twoPrimA :: [twoPrimB]) = some r
      ∧ (∀ q, (twoPrimA :: [twoPrimB]).find?
            (fun d => d.linkPrecedence == LinkPrecedence.primary) = some q →
          r.primaryContactId = q.id)
      ∧ ((twoPrimA :: [twoPrimB]).find?
            (fun d => d.linkPrecedence == LinkPrecedence.primary) = none →
          ∃ m t, sortByCreatedAt (twoPrimA :: [twoPrimB]) = m :: t
            ∧ r.primaryContactId = m.id
            ∧ ∀ x ∈ twoPrimA :: [twoPrimB], m.createdAt ≤ x.createdAt) :=
  builder_primary_choice twoPrimA [twoPrimB]

/-- Claim C7: on any non-empty cluster the built view's `emails` is the
primary's email first (when truthy) followed by each remaining distinct
email of the non-primary cluster contacts in their given order, skipping
null/empty values and values already emitted (`orderedValues`, written from
the specification's words); `phoneNumbers` follows the same rule, and
`secondaryContactIds` is exactly the ids of every cluster contact other
than the primary. -/
theorem builder_view_ordered (c : Contact) (cs : List Contact) :
    buildResponseFromContacts (c :: cs) = some
      { primaryContactId := (clusterPrimary c cs).id,
        emails := orderedValues (clusterPrimary c cs).email
          (((c :: cs).filter fun d => d.id ≠ (clusterPrimary c cs).id).map Contact.email),
        phoneNumbers := orderedValues (clusterPrimary c cs).phoneNumber
          (((c :: cs).filter fun d => d.id ≠ (clusterPrimary c cs).id).map
            Contact.phoneNumber),
        secondaryContactIds := ((c :: cs).map Contact.id).filter
          fun i => i ≠ (clusterPrimary c cs).id } :=
  buildResponseFromContacts_cons c cs

/-- Counterexample to claim C5 as stated: the empty string is a non-null
email absent from the cluster's emails, yet the novelty check returns
false (JavaScript truthiness makes `""` behave like null). -/
theorem novelty_nonnull_counterexample :
    shouldCreateSecondaryContact noveltyCluster (some "") (some "111") = false
      ∧ (some "" : Option String) ≠ none
      ∧ "" ∉ clusterEmails noveltyCluster
      ∧ ∀ d ∈ noveltyCluster, d.email ≠ some "" := by
  decide

/-- Claim C5 (amended): the novelty check returns true iff the given email
is non-null, non-empty and absent from the cluster's emails, or the given
phone is non-null, non-empty and absent from the cluster's phone numbers;
it is a pure function of the cluster list and the two inputs (its type
takes no store), performing no reads and no writes. -/
theorem novelty_iff (cluster : List Contact) (e p : Option String) :
    shouldCreateSecondaryContact cluster e p = true ↔
      ((∃ s, e = some s ∧ s ≠ "" ∧ s ∉ clusterEmails cluster)
        ∨ (∃ s, p = some s ∧ s ≠ "" ∧ s ∉ clusterPhones cluster)) := by
  have hs : ∀ s : String, (s.isEmpty = false) ↔ s ≠ "" := by
    intro s
    rw [Bool.eq_false_iff]
    constructor
    · intro h hn
      exact h (by rw [hn]; rfl)
    · intro h hn
      exact h ((String.isEmpty_iff s).mp hn)
  cases e with
  | none =>
    cases p with
    | none => simp [shouldCreateSecondaryContact, truthyStr]
    | some sp =>
      simp only [shouldCreateSecondaryContact, truthyStr, Option.getD_some,
        Bool.false_and, Bool.false_or, Bool.and_eq_true, Bool.not_eq_true',
        List.contains, List.elem_eq_mem, decide_eq_false_iff_not]
      constructor
      · rintro ⟨h1, h2⟩
        exact Or.inr ⟨sp, rfl, (hs sp).mp h1, h2⟩
      · rintro (⟨s, h, _⟩ | ⟨s, hsp, hne, hmem⟩)
        · exact Option.noConfusion h
        · rcases Option.some.inj hsp with rfl
          exact ⟨(hs sp).mpr hne, hmem⟩
  | some se =>
    cases p with
    | none =>
      simp only [shouldCreateSecondaryContact, truthyStr, Option.getD_some,
        Bool.false_and, Bool.or_false, Bool.and_eq_true, Bool.not_eq_true',
        List.contains, List.elem_eq_mem, decide_eq_false_iff_not]
      constructor
      · rintro ⟨h1, h2⟩
        exact Or.inl ⟨se, rfl, (hs se).mp h1, h2⟩
      · rintro (⟨s, hse, hne, hmem⟩ | ⟨s, h, _⟩)
        · rcases Option.some.inj hse with rfl
          exact ⟨(hs se).mpr hne, hmem⟩
        · exact Option.noConfusion h
    | some sp =>
      simp only [shouldCreateSecondaryContact, truthyStr, Option.getD_some,
        Bool.or_eq_true, Bool.and_eq_true, Bool.not_eq_true',
        List.contains, List.elem_eq_mem, decide_eq_false_iff_not]
      constructor
      · rintro (⟨h1, h2⟩ | ⟨h1, h2⟩)
        · exact Or.inl ⟨se, rfl, (hs se).mp h1, h2⟩
        · exact Or.inr ⟨sp, rfl, (hs sp).mp h1, h2⟩
      · rintro (⟨s, hse, hne, hmem⟩ | ⟨s, hsp, hne, hmem⟩)
        · rcases Option.some.inj hse with rfl
          exact Or.inl ⟨(hs se).mpr hne, hmem⟩
        · rcases Option.some.inj hsp with rfl
          exact Or.inr ⟨(hs sp).mpr hne, hmem⟩

/-- Counterexample to claim C4 as stated: on the empty store, the core
`identify` called with both fields null raises no error and creates a
primary contact with null fields (the empty `OR` matches nothing); the
`InvalidInput` rejection exists only in the HTTP controller. -/
theorem nullnull_counterexample :
    identify ⟨[], 1, 0⟩ none none
      = some ({ primaryContactId := 1, emails := [], phoneNumbers := [],
                secondaryContactIds := [] },
              ⟨[⟨1, none, none, none, LinkPrecedence.primary, 0⟩], 2, 0⟩) := by
  rfl

/-- Claim C4 (amended): the core `identify` does not guard against the
both-null input; on every store it matches nothing, creates a fresh
primary contact with null email and phone, and returns it as the
consolidated view. -/
theorem identify_nullnull_creates_primary (db : DB) :
    ∃ r db', identify db none none = some (r, db')
      ∧ db'.rows = db.rows ++
          [{ id := db.nextId, email := none, phoneNumber := none, linkedId := none,
             linkPrecedence := LinkPrecedence.primary, createdAt := db.now }]
      ∧ db'.nextId = db.nextId + 1
      ∧ r.primaryContactId = db.nextId := by
  have hm : findMatchingContacts db none none = [] := by
    simp [findMatchingContacts, emailClauseMatches, phoneClauseMatches, truthyStr]
  unfold identify
  rw [hm]
  dsimp only
  rw [if_pos (show ([] : List Contact).length = 0 from rfl)]
  unfold createNewPrimaryContact
  dsimp only
  rw [buildResponseFromContacts_cons, Option.map_some']
  exact ⟨_, _, rfl, rfl, rfl, rfl⟩

lemma createSecondaryContact_rows (db : DB) (e p : Option String) (pid : Nat) :
    (createSecondaryContact db e p pid).2.rows
      = db.rows ++ [(createSecondaryContact db e p pid).1] := rfl

/-- Claim C1: on a well-formed store where at least two distinct primary
contacts are reachable from the matched set (fetched oldest-first as
`p0 :: p1 :: rest`), `identify` succeeds; the single `updateMany` batch —
`mergeCond` selects every other reachable primary and every contact whose
`linkedId` points at one of them, `demote` sets `linkPrecedence :=
secondary` and `linkedId := p0.id` — leaves each selected row present in
the final store demoted and pointing directly at the survivor (so no
multi-hop chain survives); `p0` is oldest by `createdAt` among the
reachable primaries and the response's `primaryContactId` equals its id. -/
theorem identify_merges {db : DB} {e p : Option String} {pids : List Nat}
    {p0 p1 : Contact} {rest : List Contact}
    (hwf : WellFormed db)
    (hpids : findAllPrimaryContactIds db (findMatchingContacts db e p) = some pids)
    (hfetch : fetchPrimaryContacts db pids = p0 :: p1 :: rest) :
    ∃ r db', identify db e p = some (r, db')
      ∧ r.primaryContactId = p0.id
      ∧ (∀ q ∈ fetchPrimaryContacts db pids, p0.createdAt ≤ q.createdAt)
      ∧ (∀ c ∈ db.rows, mergeCond ((p1 :: rest).map Contact.id) c = true →
          demote p0.id c ∈ db'.rows) := by
  have hsub := matchingContacts_sub db e p
  have hne : findMatchingContacts db e p ≠ [] := by
    intro h
    rw [h] at hpids
    have hpids0 : pids = [] := by
      have h0 : findAllPrimaryContactIds db [] = some [] := rfl
      rw [h0] at hpids
      exact (Option.some.inj hpids).symm
    rw [hpids0] at hfetch
    have hf0 : fetchPrimaryContacts db [] = [] := by
      unfold fetchPrimaryContacts
      have hfe : (db.rows.filter fun c => decide (c.id ∈ ([] : List Nat))) = [] := by
        simp
      rw [hfe]
      rfl
    rw [hf0] at hfetch
    exact List.noConfusion hfetch
  have hres := resolve_eq_merge hpids hfetch
  have hprim := findAllPrimaryContactIds_primary db hsub hpids
  obtain ⟨hwf1, hp0mem, hp0p, _, _⟩ := merge_preserves_wf hwf hprim hfetch
  obtain ⟨r, db2, hid, hpid, _, hd⟩ :=
    identify_some_with_primary hne hres hp0mem hp0p hwf1.1 hwf1.2.2.1
  refine ⟨r, db2, hid, hpid, ?_, ?_⟩
  · intro q hq
    have hsort : sortByCreatedAt (db.rows.filter fun c => decide (c.id ∈ pids))
        = p0 :: p1 :: rest := hfetch
    rcases mem_fetchPrimaryContacts.mp hq with ⟨hqr, hqid⟩
    exact sortByCreatedAt_head_min hsort q
      (List.mem_filter.mpr ⟨hqr, by simpa using hqid⟩)
  · intro c hc hcond
    have hdm := @mem_merged_of_cond_true db p0 (p1 :: rest) c hc hcond
    rcases hd with hdb | hdb
    · rw [hdb]
      exact hdm
    · rw [hdb, createSecondaryContact_rows]
      exact List.mem_append_left _ hdm

/-- Witness for C1: two primaries bridged by a request carrying one field
of each; the newer primary and its secondary are demoted under id 1. -/
theorem identify_merges_witness :
    ∃ r db', identify mergeStoreW (some "a@x.com") (some "222") = some (r, db')
      ∧ r.primaryContactId = mergeW1.id
      ∧ (∀ q ∈ fetchPrimaryContacts mergeStoreW [2, 1],
          mergeW1.createdAt ≤ q.createdAt)
      ∧ (∀ c ∈ mergeStoreW.rows,
          mergeCond ([mergeW2].map Contact.id) c = true →
          demote mergeW1.id c ∈ db'.rows) :=
  @identify_merges mergeStoreW (some "a@x.com") (some "222") [2, 1]
    mergeW1 mergeW2 []
    (by unfold WellFormed PrimaryNoLink SecondaryLinksPrimary IdsNodup IdsFresh; decide)
    (by decide) (by decide)

/-- Claim C2: when the matched set is non-empty but no primary contact is
reachable (the fetch over the collected primary ids is empty), resolution
raises no error: the oldest matched contact by `createdAt` is selected,
promoted in place to primary with `linkedId` cleared, and `identify`
returns a consolidated view whose `primaryContactId` is that contact's id.
Only invariant 1 and id uniqueness are assumed — invariant 2 is already
broken on such stores, which is the point of the orphan-recovery path. -/
theorem orphan_recovery {db : DB} {e p : Option String} {pids : List Nat}
    (hinv1 : PrimaryNoLink db) (hnd : IdsNodup db)
    (hne : findMatchingContacts db e p ≠ [])
    (hpids : findAllPrimaryContactIds db (findMatchingContacts db e p) = some pids)
    (hfetch : fetchPrimaryContacts db pids = []) :
    ∃ o t r db', sortByCreatedAt (findMatchingContacts db e p) = o :: t
      ∧ (∀ x ∈ findMatchingContacts db e p, o.createdAt ≤ x.createdAt)
      ∧ identify db e p = some (r, db')
      ∧ r.primaryContactId = o.id
      ∧ promote o ∈ db'.rows := by
  have hsub := matchingContacts_sub db e p
  cases hs : sortByCreatedAt (findMatchingContacts db e p) with
  | nil =>
    exfalso
    have hperm := sortByCreatedAt_perm (findMatchingContacts db e p)
    rw [hs] at hperm
    exact hne hperm.symm.eq_nil
  | cons o t =>
    have homem : o ∈ findMatchingContacts db e p := by
      have hmem : o ∈ sortByCreatedAt (findMatchingContacts db e p) := by
        rw [hs]
        exact List.mem_cons_self _ _
      exact (sortByCreatedAt_perm _).mem_iff.mp hmem
    have horows : o ∈ db.rows := hsub o homem
    have hfilter_nil : (db.rows.filter fun c => decide (c.id ∈ pids)) = [] := by
      have hperm := sortByCreatedAt_perm (db.rows.filter fun c => decide (c.id ∈ pids))
      have hfetch' : sortByCreatedAt (db.rows.filter fun c => decide (c.id ∈ pids))
          = [] := hfetch
      rw [hfetch'] at hperm
      exact hperm.symm.eq_nil
    have hns : o.linkPrecedence ≠ LinkPrecedence.primary := by
      intro ho
      have hid : o.id ∈ pids :=
        findAllPrimaryContactIds_complete hnd hsub hpids o homem ho
      have hmemf : o ∈ db.rows.filter fun c => decide (c.id ∈ pids) :=
        List.mem_filter.mpr ⟨horows, by simpa using hid⟩
      rw [hfilter_nil] at hmemf
      exact List.not_mem_nil o hmemf
    have hres : resolvePrimaryContact db (findMatchingContacts db e p)
        = some (promote o, { db with rows := db.rows.map fun c =>
            if c.id = o.id then promote o else c }) := by
      rw [resolve_eq_orphan hpids hfetch, handleOrphaned_eq_promote hs hns]
    obtain ⟨hinv1', hnd', hmem'⟩ := promote_inv1_nodup hinv1 hnd horows
    obtain ⟨r, db2, hid2, hpid, _, hdb⟩ :=
      identify_some_with_primary hne hres hmem' rfl hinv1' hnd'
    refine ⟨o, t, r, db2, rfl, sortByCreatedAt_head_min hs, hid2, hpid, ?_⟩
    rcases hdb with h | h
    · rw [h]
      exact hmem'
    · rw [h, createSecondaryContact_rows]
      exact List.mem_append_left _ hmem'

/-- Witness for C2: a single dangling secondary (its `linkedId` target is
missing) is matched alone and promoted rather than causing an error. -/
theorem orphan_recovery_witness :
    ∃ o t r db',
      sortByCreatedAt (findMatchingContacts orphanStoreW (some "o@x.com") none) = o :: t
      ∧ (∀ x ∈ findMatchingContacts orphanStoreW (some "o@x.com") none,
          o.createdAt ≤ x.createdAt)
      ∧ identify orphanStoreW (some "o@x.com") none = some (r, db')
      ∧ r.primaryContactId = o.id
      ∧ promote o ∈ db'.rows :=
  @orphan_recovery orphanStoreW (some "o@x.com") none []
    (by unfold PrimaryNoLink; decide) (by unfold IdsNodup; decide)
    (by decide) (by decide) (by decide)

/-- Claim C6: when a request matches an existing single cluster (exactly
one reachable primary) and introduces no new field, `identify` leaves the
store exactly as it was, and a second identical call — running on that
unchanged store — returns the same consolidated view and again changes
nothing. -/
theorem identify_idempotent {db : DB} {e p : Option String} {pids : List Nat}
    {p0 : Contact}
    (hwf : WellFormed db)
    (hne : findMatchingContacts db e p ≠ [])
    (hpids : findAllPrimaryContactIds db (findMatchingContacts db e p) = some pids)
    (hfetch : fetchPrimaryContacts db pids = [p0])
    (hnonew : shouldCreateSecondaryContact (getAllRelatedContacts db p0.id) e p
        = false) :
    ∃ r, identify db e p = some (r, db)
      ∧ ∀ r2 db2, identify db e p = some (r2, db2) → r2 = r ∧ db2 = db := by
  have hsub := matchingContacts_sub db e p
  have hres := resolve_eq_single hpids hfetch
  have hprim := findAllPrimaryContactIds_primary db hsub hpids
  have hp0f : p0 ∈ fetchPrimaryContacts db pids := by
    rw [hfetch]
    exact List.mem_cons_self _ _
  have hp0r : p0 ∈ db.rows := (mem_fetchPrimaryContacts.mp hp0f).1
  have hp0p := fetched_primary hwf.2.2.1 hprim p0 hp0f
  obtain ⟨r, db2, hid, _, hnc, _⟩ :=
    identify_some_with_primary hne hres hp0r hp0p hwf.1 hwf.2.2.1
  have hdb2 : db2 = db := hnc hnonew
  rw [hdb2] at hid
  refine ⟨r, hid, ?_⟩
  intro r2 dbx h2
  rw [hid] at h2
  have hinj := Option.some.inj h2
  exact ⟨(congrArg Prod.fst hinj).symm, (congrArg Prod.snd hinj).symm⟩

/-- Witness for C6: repeating a request whose email and phone are both
already in the cluster. -/
theorem identify_idempotent_witness :
    ∃ r, identify idemStoreW (some "b@x.com") (some "111") = some (r, idemStoreW)
      ∧ ∀ r2 db2, identify idemStoreW (some "b@x.com") (some "111") = some (r2, db2) →
          r2 = r ∧ db2 = idemStoreW :=
  @identify_idempotent idemStoreW (some "b@x.com") (some "111") [1] idemW1
    (by unfold WellFormed PrimaryNoLink SecondaryLinksPrimary IdsNodup IdsFresh; decide)
    (by decide) (by decide) (by decide) (by decide)

/-- Claim C8: on every store satisfying the storage invariants (primaries
carry no link; every secondary points directly at a stored primary; ids
unique and below the counter), every `identify` call — through new-primary
creation, merge demotion, orphan-recovery promotion, and new-secondary
creation alike — succeeds and produces a store that still satisfies the
invariants. -/
theorem identify_preserves_invariants (db : DB) (e p : Option String)
    (hwf : WellFormed db) :
    ∃ r db', identify db e p = some (r, db')
      ∧ PrimaryNoLink db' ∧ SecondaryLinksPrimary db'
      ∧ IdsNodup db' ∧ IdsFresh db' := by
  by_cases hm : findMatchingContacts db e p = []
  · have hid : identify db e p = createNewPrimaryContact db e p := by
      unfold identify
      rw [hm]
      dsimp only
      rw [if_pos (show ([] : List Contact).length = 0 from rfl)]
    rw [hid]
    unfold createNewPrimaryContact
    dsimp only
    rw [buildResponseFromContacts_cons, Option.map_some']
    have hwf2 : WellFormed (createContact db e p none LinkPrecedence.primary).2 :=
      create_preserves_wf hwf (fun h => LinkPrecedence.noConfusion h) fun _ => rfl
    exact ⟨_, _, rfl, hwf2.1, hwf2.2.1, hwf2.2.2.1, hwf2.2.2.2⟩
  · have hsub := matchingContacts_sub db e p
    obtain ⟨pids, hpids⟩ :=
      Option.isSome_iff_exists.mp (findAllPrimaryContactIds_isSome db _ hsub)
    cases hres0 : resolvePrimaryContact db (findMatchingContacts db e p) with
    | none =>
      exfalso
      cases hfetch : fetchPrimaryContacts db pids with
      | nil =>
        cases hs : sortByCreatedAt (findMatchingContacts db e p) with
        | nil =>
          have hperm := sortByCreatedAt_perm (findMatchingContacts db e p)
          rw [hs] at hperm
          exact hm hperm.symm.eq_nil
        | cons o t =>
          by_cases ho : o.linkPrecedence = LinkPrecedence.primary
          · rw [resolve_eq_orphan hpids hfetch, handleOrphaned_eq_self hs ho] at hres0
            exact Option.noConfusion hres0
          · rw [resolve_eq_orphan hpids hfetch, handleOrphaned_eq_promote hs ho] at hres0
            exact Option.noConfusion hres0
      | cons p0 rest0 =>
        cases rest0 with
        | nil =>
          rw [resolve_eq_single hpids hfetch] at hres0
          exact Option.noConfusion hres0
        | cons p1 rest =>
          rw [resolve_eq_merge hpids hfetch] at hres0
          exact Option.noConfusion hres0
    | some pcdb =>
      obtain ⟨pc, db1⟩ := pcdb
      obtain ⟨hwf1, hmem1, hp1, _, _⟩ := resolve_preserves hwf hsub hres0
      obtain ⟨r, db2, hid, _, _, hdb⟩ :=
        identify_some_with_primary hm hres0 hmem1 hp1 hwf1.1 hwf1.2.2.1
      refine ⟨r, db2, hid, ?_⟩
      rcases hdb with h | h
      · rw [h]
        exact ⟨hwf1.1, hwf1.2.1, hwf1.2.2.1, hwf1.2.2.2⟩
      · have hwf2 : WellFormed (createContact db1 e p (some pc.id)
            LinkPrecedence.secondary).2 :=
          create_preserves_wf hwf1 (fun _ => ⟨pc, hmem1, rfl, hp1⟩)
            fun hh => LinkPrecedence.noConfusion hh
        rw [h]
        exact ⟨hwf2.1, hwf2.2.1, hwf2.2.2.1, hwf2.2.2.2⟩

/-- Witness for C8 on the merge store: the call that bridges the two
primaries (exercising the merge path) keeps the invariants. -/
theorem identify_preserves_invariants_witness :
    ∃ r db', identify mergeStoreW (some "b@x.com") (some "111") = some (r, db')
      ∧ PrimaryNoLink db' ∧ SecondaryLinksPrimary db'
      ∧ IdsNodup db' ∧ IdsFresh db' :=
  identify_preserves_invariants mergeStoreW (some "b@x.com") (some "111")
    (by unfold WellFormed PrimaryNoLink SecondaryLinksPrimary IdsNodup IdsFresh; decide)
